import Mathlib

/-!
Shallow embedding of the pwiz ABI chromatogram catalog
(`pwiz::msdata::detail::ChromatogramList_ABI`): lazy index construction
(`createIndex`), identity and id lookup (`chromatogramIdentity`, `find`),
and on-demand record materialization (`chromatogram`).

The vendor SDK (`WiffFile`, `Experiment`, `Target`) is modelled as explicit
hierarchical data; the `double` values carried by the file are modelled by
the exact linearly ordered additive type `Dbl := ℤ` (the indexing, merging
and ordering logic under verification only compares, orders and adds these
values, so it is independent of the numeric representation); the ordered
`std::map` from time to intensity used for TIC aggregation is modelled as a
key-sorted association list (`mapAdd`).  The C++ methods that throw on a bad
position are modelled with the `CLResult` sum type; an unchecked
out-of-bounds `std::vector` access (undefined behavior in C++) is the
distinguished outcome `CLResult.undefinedAccess`.
-/

namespace ChromatogramListABI

/-- Model of the C++ `double` values carried by the acquisition file. -/
abbrev Dbl : Type := Int

/-- Scalar SRM metadata returned by the vendor SDK for one transition
(`pwiz::wiff::Target`). -/
structure Target where
  q1 : Dbl := 0
  q3 : Dbl := 0
  dwellTime : Dbl := 0
  collisionEnergy : Dbl := 0
  declusteringPotential : Dbl := 0
  deriving DecidableEq

/-- One SRM transition of an experiment: its `Target` metadata (as filled in
by `getSRM`) and its SIC trace as parallel time/intensity values (as filled
in by `getSIC`). -/
structure Transition where
  target : Target := {}
  sicTimesIntensities : List (Dbl × Dbl) := []
  deriving DecidableEq

/-- One experiment: its SRM transitions and its TIC trace as parallel
time/intensity values (as filled in by `getTIC`). -/
structure Experiment where
  transitions : List Transition := []
  ticTimesIntensities : List (Dbl × Dbl) := []
  deriving DecidableEq

/-- Number of SRM transitions (`Experiment::getSRMSize`). -/
def Experiment.getSRMSize (e : Experiment) : Nat := e.transitions.length

/-- Per-transition scalar metadata (`Experiment::getSRM`), 0-based. -/
def Experiment.getSRM (e : Experiment) (i : Nat) : Target :=
  (e.transitions.getD i {}).target

/-- Per-transition SIC time/intensity vectors (`Experiment::getSIC`), 0-based. -/
def Experiment.getSIC (e : Experiment) (i : Nat) : List (Dbl × Dbl) :=
  (e.transitions.getD i {}).sicTimesIntensities

/-- Per-experiment TIC time/intensity vectors (`Experiment::getTIC`). -/
def Experiment.getTIC (e : Experiment) : List (Dbl × Dbl) := e.ticTimesIntensities

/-- One acquisition period: a sequence of experiments. -/
structure Period where
  experiments : List Experiment := []
  deriving DecidableEq

/-- One sample: a sequence of periods. -/
structure Sample where
  periods : List Period := []
  deriving DecidableEq

/-- The Raw Acquisition Handle (`WiffFile`): a sequence of samples. -/
structure WiffFile where
  samples : List Sample := []
  deriving DecidableEq

/-- `WiffFile::getSampleCount`. -/
def WiffFile.getSampleCount (wf : WiffFile) : Nat := wf.samples.length

/-- The sample with 1-based number `i` (the SDK uses 1-based coordinates). -/
def WiffFile.getSample (wf : WiffFile) (i : Nat) : Sample :=
  wf.samples.getD (i - 1) {}

/-- `WiffFile::getPeriodCount(sample)`. -/
def WiffFile.getPeriodCount (wf : WiffFile) (i : Nat) : Nat :=
  (wf.getSample i).periods.length

/-- The period with 1-based number `ii` of sample `i`. -/
def WiffFile.getPeriod (wf : WiffFile) (i ii : Nat) : Period :=
  (wf.getSample i).periods.getD (ii - 1) {}

/-- `WiffFile::getExperimentCount(sample, period)`. -/
def WiffFile.getExperimentCount (wf : WiffFile) (i ii : Nat) : Nat :=
  (wf.getPeriod i ii).experiments.length

/-- `WiffFile::getExperiment(sample, period, experiment)` (1-based). -/
def WiffFile.getExperiment (wf : WiffFile) (i ii iii : Nat) : Experiment :=
  (wf.getPeriod i ii).experiments.getD (iii - 1) {}

/-- The two chromatogram kinds produced by this catalog
(`MS_TIC_chromatogram` and `MS_SRM_chromatogram` CV terms). -/
inductive ChromatogramType where
  | MS_TIC_chromatogram
  | MS_SRM_chromatogram
  deriving DecidableEq

/-- `ChromatogramList_ABI::IndexEntry`: position, string id, kind, and the
vendor coordinates plus cached Q1/Q3 needed to re-fetch raw data later. -/
structure IndexEntry where
  index : Nat := 0
  id : String := ""
  chromatogramType : ChromatogramType := ChromatogramType.MS_TIC_chromatogram
  q1 : Dbl := 0
  q3 : Dbl := 0
  sample : Nat := 0
  period : Nat := 0
  experiment : Nat := 0
  transition : Nat := 0
  deriving DecidableEq

/-- Textual rendering of a numeric value, standing in for streaming a
`double` into the id string. -/
def showVal (q : Dbl) : String := toString q

/-- The fixed textual template used by `createIndex` for a per-transition
entry's string id. -/
def mkSRMId (s ii iii iiii : Nat) (target : Target) : String :=
  "SRM SIC Q1=" ++ showVal target.q1 ++
    " Q3=" ++ showVal target.q3 ++
    " sample=" ++ toString s ++
    " period=" ++ toString ii ++
    " experiment=" ++ toString iii ++
    " transition=" ++ toString iiii

/-- The per-transition index entry pushed by `createIndex`: coordinates,
cached Q1/Q3, the templated string id, and the entry's position (in the C++,
`index_.size()-1` right after the `push_back`, i.e. the length of the index
before the push). -/
def mkSRMEntry (s ii iii iiii : Nat) (target : Target) (pos : Nat) : IndexEntry :=
  { index := pos
    id := mkSRMId s ii iii iiii target
    chromatogramType := ChromatogramType.MS_SRM_chromatogram
    q1 := target.q1
    q3 := target.q3
    sample := s
    period := ii
    experiment := iii
    transition := iiii }

/-- The aggregate entry pushed first by `createIndex`: position 0, fixed id
`"TIC"`, TIC kind (coordinates left default-initialized). -/
def ticEntry : IndexEntry :=
  { index := 0, id := "TIC", chromatogramType := ChromatogramType.MS_TIC_chromatogram }

/-- The innermost loop of `createIndex`: for `iiii` from `0` to
`getSRMSize()-1`, fetch the target with `getSRM` and push one SRM entry. -/
def pushTransitions (s ii iii : Nat) (e : Experiment) (acc : List IndexEntry) :
    List IndexEntry :=
  (List.range e.getSRMSize).foldl
    (fun acc iiii => acc ++ [mkSRMEntry s ii iii iiii (e.getSRM iiii) acc.length]) acc

/-- The middle loop of `createIndex`: for `iii` from `1` to
`getExperimentCount(sample, ii)`, fetch the experiment and push its
transitions. -/
def pushExperiments (wf : WiffFile) (s ii : Nat) (acc : List IndexEntry) :
    List IndexEntry :=
  (List.range (wf.getExperimentCount s ii)).foldl
    (fun acc iii => pushTransitions s ii (iii + 1) (wf.getExperiment s ii (iii + 1)) acc)
    acc

/-- `ChromatogramList_ABI::createIndex`: first push the `"TIC"` entry, then
walk period/experiment/transition of the catalog's bound sample, pushing one
SRM entry per transition. -/
def createIndex (wf : WiffFile) (sample : Nat) : List IndexEntry :=
  (List.range (wf.getPeriodCount sample)).foldl
    (fun acc ii => pushExperiments wf sample (ii + 1) acc)
    [ticEntry]

/-- `ChromatogramList_ABI::size`: after index construction, `size_` is the
number of index entries. -/
def size (wf : WiffFile) (sample : Nat) : Nat := (createIndex wf sample).length

/-- Outcome of a position-checked catalog operation: a returned value, the
`runtime_error` thrown for a bad position (carrying the offending position),
or an unchecked out-of-bounds `std::vector` access (undefined behavior). -/
inductive CLResult (α : Type) where
  | ok : α → CLResult α
  | outOfRange : Nat → CLResult α
  | undefinedAccess : CLResult α
  deriving DecidableEq

/-- `ChromatogramList_ABI::chromatogramIdentity`: throws (`outOfRange`) only
when `index > size_`; otherwise reads `index_[index]`, which for
`index = size_` is an out-of-bounds access. -/
def chromatogramIdentity (wf : WiffFile) (sample : Nat) (index : Nat) :
    CLResult IndexEntry :=
  if index > (createIndex wf sample).length then CLResult.outOfRange index
  else
    match (createIndex wf sample)[index]? with
    | some ie => CLResult.ok ie
    | none => CLResult.undefinedAccess

/-- The catalog's `idToIndexMap_` as it stands after `createIndex` ran:
default-constructed empty, and `createIndex` never inserts into it. -/
def idToIndexMap (wf : WiffFile) (sample : Nat) : List (String × Nat) := []

/-- `ChromatogramList_ABI::find`: look the id up in `idToIndexMap_`,
returning `size_` when absent. -/
def find (wf : WiffFile) (sample : Nat) (id : String) : Nat :=
  match (idToIndexMap wf sample).lookup id with
  | some pos => pos
  | none => size wf sample

/-- One `fullFileTIC[t] += v` step on the key-sorted association list that
models `std::map from double to double` (absent keys value-initialize to 0). -/
def mapAdd : List (Dbl × Dbl) → Dbl → Dbl → List (Dbl × Dbl)
  | [], t, v => [(t, v)]
  | (t', v') :: rest, t, v =>
    if t < t' then (t, v) :: (t', v') :: rest
    else if t = t' then (t', v' + v) :: rest
    else (t', v') :: mapAdd rest t v

/-- All TIC points fed into `fullFileTIC`, in loop order: every sample of
the file, every period of that sample, every experiment of that period,
that experiment's TIC trace. -/
def allTicPoints (wf : WiffFile) : List (Dbl × Dbl) :=
  (List.range wf.getSampleCount).flatMap fun i =>
    (List.range (wf.getPeriodCount (i + 1))).flatMap fun ii =>
      (List.range (wf.getExperimentCount (i + 1) (ii + 1))).flatMap fun iii =>
        (wf.getExperiment (i + 1) (ii + 1) (iii + 1)).getTIC

/-- The `fullFileTIC` map built by the TIC branch of
`ChromatogramList_ABI::chromatogram`: every TIC point of every
sample/period/experiment added in loop order with `+=` on its time key. -/
def fullFileTIC (wf : WiffFile) : List (Dbl × Dbl) :=
  (allTicPoints wf).foldl (fun m p => mapAdd m p.1 p.2) []

/-- The materialized output record (`pwiz::msdata::Chromatogram`): identity,
kind tag, SRM metadata when present, and the time/intensity payload with its
declared length. -/
structure Chromatogram where
  index : Nat := 0
  id : String := ""
  chromatogramType : ChromatogramType := ChromatogramType.MS_TIC_chromatogram
  dwellTime : Option Dbl := none
  precursorIsolationWindowTargetMz : Option Dbl := none
  collisionEnergy : Option Dbl := none
  declusteringPotential : Option Dbl := none
  productIsolationWindowTargetMz : Option Dbl := none
  timeArray : List Dbl := []
  intensityArray : List Dbl := []
  defaultArrayLength : Nat := 0
  deriving DecidableEq

/-- The body of `ChromatogramList_ABI::chromatogram` after the index entry
has been fetched: dispatch on the entry's kind; fill the arrays only when
`getBinaryData` is set, but always set `defaultArrayLength` to the true
element count. -/
def materializeEntry (wf : WiffFile) (index : Nat) (ie : IndexEntry)
    (getBinaryData : Bool) : Chromatogram :=
  match ie.chromatogramType with
  | ChromatogramType.MS_TIC_chromatogram =>
    let tic := fullFileTIC wf
    { index := index
      id := ie.id
      chromatogramType := ie.chromatogramType
      timeArray := if getBinaryData then tic.map Prod.fst else []
      intensityArray := if getBinaryData then tic.map Prod.snd else []
      defaultArrayLength := tic.length }
  | ChromatogramType.MS_SRM_chromatogram =>
    let experiment := wf.getExperiment ie.sample ie.period ie.experiment
    let target := experiment.getSRM ie.transition
    let sic := experiment.getSIC ie.transition
    { index := index
      id := ie.id
      chromatogramType := ie.chromatogramType
      dwellTime := some target.dwellTime
      precursorIsolationWindowTargetMz := some ie.q1
      collisionEnergy := some target.collisionEnergy
      declusteringPotential := some target.declusteringPotential
      productIsolationWindowTargetMz := some ie.q3
      timeArray := if getBinaryData then sic.map Prod.fst else []
      intensityArray := if getBinaryData then sic.map Prod.snd else []
      defaultArrayLength := sic.length }

/-- `ChromatogramList_ABI::chromatogram`: same position check as
`chromatogramIdentity` (throws only for `index > size_`; reads
`index_[index]` otherwise), then materializes the entry. -/
def chromatogram (wf : WiffFile) (sample : Nat) (index : Nat)
    (getBinaryData : Bool) : CLResult Chromatogram :=
  if index > (createIndex wf sample).length then CLResult.outOfRange index
  else
    match (createIndex wf sample)[index]? with
    | some ie => CLResult.ok (materializeEntry wf index ie getBinaryData)
    | none => CLResult.undefinedAccess

/-- Total intensity recorded for time key `t` in a list of time/intensity
points (0 when the time is absent). -/
def valAt : List (Dbl × Dbl) → Dbl → Dbl
  | [], _ => 0
  | (t', v) :: rest, t => (if t' = t then v else 0) + valAt rest t

/-- Keys of the association list are strictly ascending. -/
def KeysSorted (m : List (Dbl × Dbl)) : Prop :=
  List.Chain' (fun p q : Dbl × Dbl => p.1 < q.1) m

/-- An index whose every entry records its own position. -/
def IndexedFrom (l : List IndexEntry) : Prop :=
  ∀ (p : Nat) (e : IndexEntry), l[p]? = some e → e.index = p

/-- The per-transition entries of the bound sample in nested
period/experiment/transition enumeration order, with the position field
zeroed out (positions are compared separately). -/
def srmEnumEntries (wf : WiffFile) (s : Nat) : List IndexEntry :=
  (List.range (wf.getPeriodCount s)).flatMap fun ii =>
    (List.range (wf.getExperimentCount s (ii + 1))).flatMap fun iii =>
      (List.range ((wf.getExperiment s (ii + 1) (iii + 1)).getSRMSize)).map fun iiii =>
        mkSRMEntry s (ii + 1) (iii + 1) iiii
          ((wf.getExperiment s (ii + 1) (iii + 1)).getSRM iiii) 0

/-- Forget an entry's position field. -/
def eraseIndex (e : IndexEntry) : IndexEntry := { e with index := 0 }

/-- Fixture: one sample with zero periods. -/
def W0 : WiffFile := { samples := [{ periods := [] }] }

/-- Fixture experiment contributing intensity 5 at time 123 (1.23 minutes in
hundredths). -/
def expA : Experiment := { ticTimesIntensities := [(123, 5)] }

/-- Fixture experiment contributing intensity 7 at the identical time 123. -/
def expB : Experiment := { ticTimesIntensities := [(123, 7)] }

/-- Fixture: one sample, one period, two experiments colliding at time 1.23. -/
def W4 : WiffFile :=
  { samples := [{ periods := [{ experiments := [expA, expB] }] }] }

/-- Fixture transition with Q1=400, Q3=200, dwell=0.1 and a two-point SIC. -/
def trans1 : Transition :=
  { target := { q1 := 400, q3 := 200, dwellTime := 1 }
    sicTimesIntensities := [(1, 2), (3, 4)] }

/-- Fixture: one sample, one period, one experiment with one transition. -/
def W7 : WiffFile :=
  { samples :=
      [{ periods :=
          [{ experiments :=
              [{ transitions := [trans1], ticTimesIntensities := [(1, 9)] }] }] }] }

/-- Fixture: two samples; sample 1 contributes TIC point (1, 10); sample 2
contributes TIC point (2, 20) and one transition. -/
def W8 : WiffFile :=
  { samples :=
      [{ periods := [{ experiments := [{ ticTimesIntensities := [(1, 10)] }] }] },
       { periods :=
          [{ experiments :=
              [{ transitions := [trans1], ticTimesIntensities := [(2, 20)] }] }] }] }

/-- Fixture: `W8` with sample 2 removed (sample 1 unchanged). -/
def W8b : WiffFile :=
  { samples :=
      [{ periods := [{ experiments := [{ ticTimesIntensities := [(1, 10)] }] }] }] }

/-- The SRM index entry that `createIndex` builds for `trans1` at
sample 1, period 1, experiment 1, transition 0, position 1. -/
def E71 : IndexEntry := mkSRMEntry 1 1 1 0 trans1.target 1

/-- Expected aggregate record for `W4` with binary data. -/
def R4 : Chromatogram :=
  { index := 0
    id := "TIC"
    chromatogramType := ChromatogramType.MS_TIC_chromatogram
    timeArray := [123]
    intensityArray := [12]
    defaultArrayLength := 1 }

/-- Expected aggregate record for `W7` without binary data. -/
def R70f : Chromatogram :=
  { index := 0
    id := "TIC"
    chromatogramType := ChromatogramType.MS_TIC_chromatogram
    defaultArrayLength := 1 }

/-- Expected aggregate record for `W7` with binary data. -/
def R70t : Chromatogram :=
  { R70f with timeArray := [1], intensityArray := [9] }

/-- Expected SRM record for `W7`, position 1, without binary data. -/
def R71f : Chromatogram :=
  { index := 1
    id := mkSRMId 1 1 1 0 trans1.target
    chromatogramType := ChromatogramType.MS_SRM_chromatogram
    dwellTime := some 1
    precursorIsolationWindowTargetMz := some 400
    collisionEnergy := some 0
    declusteringPotential := some 0
    productIsolationWindowTargetMz := some 200
    defaultArrayLength := 2 }

/-- Expected SRM record for `W7`, position 1, with binary data. -/
def R71t : Chromatogram :=
  { R71f with timeArray := [1, 3], intensityArray := [2, 4] }

/-- Expected aggregate record for `W8` with binary data: it carries the TIC
points of both samples although the catalog is bound to sample 1. -/
def R8 : Chromatogram :=
  { index := 0
    id := "TIC"
    chromatogramType := ChromatogramType.MS_TIC_chromatogram
    timeArray := [1, 2]
    intensityArray := [10, 20]
    defaultArrayLength := 2 }

/-! ### Generic fold lemmas -/

/-- A predicate preserved by every step of a left fold holds of the result. -/
theorem foldl_preserves {α β : Type} (P : β → Prop) (f : β → α → β)
    (hstep : ∀ acc x, P acc → P (f acc x)) :
    ∀ (l : List α) (init : β), P init → P (l.foldl f init)
  | [], _, h => h
  | x :: xs, init, h => foldl_preserves P f hstep xs (f init x) (hstep init x h)

/-- A left fold whose every step appends a block (under a projection)
produces the concatenation of the blocks, in step order. -/
theorem foldl_map_eq {α γ : Type} (proj : IndexEntry → γ)
    (step : List IndexEntry → α → List IndexEntry) (g : α → List γ)
    (hstep : ∀ acc x, (step acc x).map proj = acc.map proj ++ g x) :
    ∀ (l : List α) (acc : List IndexEntry),
      (l.foldl step acc).map proj = acc.map proj ++ l.flatMap g
  | [], acc => by simp
  | x :: xs, acc => by
    rw [List.foldl_cons, foldl_map_eq proj step g hstep xs (step acc x), hstep,
      List.flatMap_cons, List.append_assoc]

/-! ### Invariants of index construction -/

/-- Appending one entry that records the current length preserves
`IndexedFrom`. -/
theorem indexedFrom_push (acc : List IndexEntry) (e : IndexEntry)
    (h : IndexedFrom acc) (he : e.index = acc.length) :
    IndexedFrom (acc ++ [e]) := by
  intro p x hx
  rw [List.getElem?_append] at hx
  by_cases hp : p < acc.length
  · rw [if_pos hp] at hx
    exact h p x hx
  · rw [if_neg hp] at hx
    have hp0 : p - acc.length = 0 := by
      by_contra hne
      obtain ⟨k, hk⟩ : ∃ k, p - acc.length = k + 1 := Nat.exists_eq_succ_of_ne_zero hne
      rw [hk] at hx
      exact Option.noConfusion hx
    rw [hp0] at hx
    have hx' : e = x := Option.some.inj hx
    have hplen : p = acc.length := by omega
    rw [← hx', he, hplen]

/-- `pushTransitions` preserves `IndexedFrom`. -/
theorem indexedFrom_pushTransitions (s ii iii : Nat) (e : Experiment)
    (acc : List IndexEntry) (h : IndexedFrom acc) :
    IndexedFrom (pushTransitions s ii iii e acc) :=
  foldl_preserves IndexedFrom _
    (fun acc' iiii h' => indexedFrom_push acc' _ h' rfl) _ acc h

/-- `pushExperiments` preserves `IndexedFrom`. -/
theorem indexedFrom_pushExperiments (wf : WiffFile) (s ii : Nat)
    (acc : List IndexEntry) (h : IndexedFrom acc) :
    IndexedFrom (pushExperiments wf s ii acc) :=
  foldl_preserves IndexedFrom _
    (fun acc' iii h' => indexedFrom_pushTransitions s ii (iii + 1) _ acc' h') _ acc h

/-- Every entry of the constructed index records its own position. -/
theorem indexedFrom_createIndex (wf : WiffFile) (s : Nat) :
    IndexedFrom (createIndex wf s) := by
  refine foldl_preserves IndexedFrom _
    (fun acc' ii h' => indexedFrom_pushExperiments wf s (ii + 1) acc' h') _ [ticEntry] ?_
  intro p x hx
  match p with
  | 0 =>
    have : ticEntry = x := Option.some.inj hx
    rw [← this]
    rfl
  | q + 1 => exact Option.noConfusion hx

/-- Appending entries preserves the entry stored at position 0. -/
theorem zeroEntry_push (acc : List IndexEntry) (e : IndexEntry)
    (h : acc[0]? = some ticEntry) : (acc ++ [e])[0]? = some ticEntry := by
  rw [List.getElem?_append]
  have : 0 < acc.length := by
    by_contra hlen
    have hnil : acc = [] := List.eq_nil_of_length_eq_zero (by omega)
    rw [hnil] at h
    exact Option.noConfusion h
  rw [if_pos this]
  exact h

/-- Entry 0 of the constructed index is the `"TIC"` entry. -/
theorem createIndex_zero (wf : WiffFile) (s : Nat) :
    (createIndex wf s)[0]? = some ticEntry := by
  refine foldl_preserves (fun l => l[0]? = some ticEntry) _ ?_ _ [ticEntry] rfl
  intro acc ii h
  refine foldl_preserves (fun l => l[0]? = some ticEntry) _ ?_ _ acc h
  intro acc' iii h'
  exact foldl_preserves (fun l => l[0]? = some ticEntry) _
    (fun acc'' iiii h'' => zeroEntry_push acc'' _ h'') _ acc' h'

/-- The index always holds at least the `"TIC"` entry. -/
theorem createIndex_length_pos (wf : WiffFile) (s : Nat) :
    0 < (createIndex wf s).length := by
  have h := createIndex_zero wf s
  by_contra hlen
  have hnil : createIndex wf s = [] := List.eq_nil_of_length_eq_zero (by omega)
  rw [hnil] at h
  exact Option.noConfusion h


/-! ### Closed form of index construction -/

/-- Flat-mapping singletons is mapping. -/
theorem flatMap_singleton_map {α γ : Type} (f : α → γ) (l : List α) :
    (l.flatMap fun x => [f x]) = l.map f := by
  induction l with
  | nil => rfl
  | cons a as ih => rw [List.flatMap_cons, List.map_cons, ih]; rfl

/-- Up to positions, the innermost loop appends one SRM entry per transition,
in transition order. -/
theorem map_erase_pushTransitions (s ii iii : Nat) (e : Experiment)
    (acc : List IndexEntry) :
    (pushTransitions s ii iii e acc).map eraseIndex
      = acc.map eraseIndex
        ++ (List.range e.getSRMSize).map
            (fun iiii => mkSRMEntry s ii iii iiii (e.getSRM iiii) 0) := by
  rw [pushTransitions,
    foldl_map_eq eraseIndex _ (fun iiii => [mkSRMEntry s ii iii iiii (e.getSRM iiii) 0])
      (fun acc' iiii => by rw [List.map_append]; rfl) (List.range e.getSRMSize) acc,
    flatMap_singleton_map]

/-- Up to positions, the middle loop appends the per-experiment blocks in
experiment order. -/
theorem map_erase_pushExperiments (wf : WiffFile) (s ii : Nat)
    (acc : List IndexEntry) :
    (pushExperiments wf s ii acc).map eraseIndex
      = acc.map eraseIndex
        ++ (List.range (wf.getExperimentCount s ii)).flatMap (fun iii =>
            (List.range ((wf.getExperiment s ii (iii + 1)).getSRMSize)).map
              (fun iiii => mkSRMEntry s ii (iii + 1) iiii
                ((wf.getExperiment s ii (iii + 1)).getSRM iiii) 0)) := by
  rw [pushExperiments,
    foldl_map_eq eraseIndex _ _
      (fun acc' iii =>
        map_erase_pushTransitions s ii (iii + 1) (wf.getExperiment s ii (iii + 1)) acc')
      (List.range (wf.getExperimentCount s ii)) acc]

/-- Up to positions, the constructed index is the `"TIC"` entry followed by
the per-transition entries in nested period/experiment/transition
enumeration order. -/
theorem map_erase_createIndex (wf : WiffFile) (s : Nat) :
    (createIndex wf s).map eraseIndex = ticEntry :: srmEnumEntries wf s := by
  rw [createIndex,
    foldl_map_eq eraseIndex _ _
      (fun acc' ii => map_erase_pushExperiments wf s (ii + 1) acc')
      (List.range (wf.getPeriodCount s)) [ticEntry]]
  rfl

/-- `createIndex` reads only the catalog's bound sample: two files agreeing
on that sample yield the same index. -/
theorem createIndex_congr (wf wf' : WiffFile) (s : Nat)
    (h : wf.getSample s = wf'.getSample s) :
    createIndex wf s = createIndex wf' s := by
  simp only [createIndex, pushExperiments, pushTransitions, WiffFile.getPeriodCount,
    WiffFile.getExperimentCount, WiffFile.getExperiment, WiffFile.getPeriod, h]

/-! ### The TIC merge map -/

/-- Pointwise pairing of the projections of a pair list. -/
theorem zip_fst_snd {α β : Type} (l : List (α × β)) :
    (l.map Prod.fst).zip (l.map Prod.snd) = l := by
  induction l with
  | nil => rfl
  | cons a as ih => rw [List.map_cons, List.map_cons, List.zip_cons_cons, ih]


/-- Effect of one `+=` step on the intensity totalled at a key. -/
theorem valAt_mapAdd (m : List (Dbl × Dbl)) (t v u : Dbl) :
    valAt (mapAdd m t v) u = valAt m u + (if t = u then v else 0) := by
  induction m with
  | nil => simp [mapAdd, valAt]
  | cons a rest ih =>
    obtain ⟨ta, va⟩ := a
    by_cases h1 : t < ta
    · simp only [mapAdd, if_pos h1, valAt]
      ring
    · by_cases h2 : t = ta
      · subst h2
        simp only [mapAdd, if_neg h1, if_pos rfl, valAt]
        by_cases h3 : t = u
        · simp only [if_pos h3]
          ring
        · simp only [if_neg h3]
          ring
      · simp only [mapAdd, if_neg h1, if_neg h2, valAt, ih]
        ring

/-- The head key of the map after one `+=` step is the inserted key or the
old head key. -/
theorem mapAdd_head_key (m : List (Dbl × Dbl)) (t v : Dbl) :
    ∀ y ∈ (mapAdd m t v).head?, y.1 = t ∨ ∃ z ∈ m.head?, y.1 = z.1 := by
  match m with
  | [] =>
    intro y hy
    simp only [mapAdd, List.head?_cons, Option.mem_def, Option.some.injEq] at hy
    left
    rw [← hy]
  | (c, d) :: r =>
    intro y hy
    by_cases h1 : t < c
    · simp only [mapAdd, if_pos h1, List.head?_cons, Option.mem_def, Option.some.injEq] at hy
      left
      rw [← hy]
    · by_cases h2 : t = c
      · simp only [mapAdd, if_neg h1, if_pos h2, List.head?_cons, Option.mem_def,
          Option.some.injEq] at hy
        right
        exact ⟨(c, d), rfl, by rw [← hy]⟩
      · simp only [mapAdd, if_neg h1, if_neg h2, List.head?_cons, Option.mem_def,
          Option.some.injEq] at hy
        right
        exact ⟨(c, d), rfl, by rw [← hy]⟩

/-- One `+=` step keeps the map sorted by strictly ascending key. -/
theorem keysSorted_mapAdd (m : List (Dbl × Dbl)) (t v : Dbl) (h : KeysSorted m) :
    KeysSorted (mapAdd m t v) := by
  induction m with
  | nil => simp [mapAdd, KeysSorted]
  | cons a rest ih =>
    obtain ⟨ta, va⟩ := a
    rw [KeysSorted, List.chain'_cons'] at h
    obtain ⟨hHead, hRest⟩ := h
    by_cases h1 : t < ta
    · rw [KeysSorted]
      simp only [mapAdd, if_pos h1]
      rw [List.chain'_cons']
      refine ⟨?_, ?_⟩
      · intro y hy
        simp only [List.head?_cons, Option.mem_def, Option.some.injEq] at hy
        rw [← hy]
        exact h1
      · rw [List.chain'_cons']
        exact ⟨hHead, hRest⟩
    · by_cases h2 : t = ta
      · rw [KeysSorted]
        simp only [mapAdd, if_neg h1, if_pos h2]
        rw [List.chain'_cons']
        exact ⟨hHead, hRest⟩
      · rw [KeysSorted]
        simp only [mapAdd, if_neg h1, if_neg h2]
        rw [List.chain'_cons']
        refine ⟨?_, ih hRest⟩
        intro y hy
        rcases mapAdd_head_key rest t v y hy with hkey | ⟨z, hz, hkey⟩
        · rw [hkey]
          exact lt_of_le_of_ne (not_lt.mp h1) (fun he => h2 he.symm)
        · rw [hkey]
          exact hHead z hz

/-- Totalled intensity after folding a point list into the map. -/
theorem valAt_foldl (pts : List (Dbl × Dbl)) :
    ∀ (m : List (Dbl × Dbl)) (u : Dbl),
      valAt (pts.foldl (fun m p => mapAdd m p.1 p.2) m) u = valAt m u + valAt pts u := by
  induction pts with
  | nil =>
    intro m u
    simp [valAt]
  | cons p ps ih =>
    intro m u
    obtain ⟨tp, vp⟩ := p
    rw [List.foldl_cons, ih, valAt_mapAdd]
    simp only [valAt]
    ring

/-- The full-file TIC map totals, at every time key, exactly the intensities
of the source points carrying that key. -/
theorem valAt_fullFileTIC (wf : WiffFile) (u : Dbl) :
    valAt (fullFileTIC wf) u = valAt (allTicPoints wf) u := by
  rw [fullFileTIC, valAt_foldl]
  simp [valAt]

/-- The full-file TIC map is sorted by strictly ascending time. -/
theorem keysSorted_fullFileTIC (wf : WiffFile) : KeysSorted (fullFileTIC wf) := by
  refine foldl_preserves KeysSorted _ (fun m p h => keysSorted_mapAdd m p.1 p.2 h)
    (allTicPoints wf) [] ?_
  exact List.chain'_nil

/-! ### Fetching a validated entry -/

/-- For a position whose entry exists, `chromatogramIdentity` returns it. -/
theorem chromatogramIdentity_ok (wf : WiffFile) (s p : Nat) (ie : IndexEntry)
    (hie : (createIndex wf s)[p]? = some ie) :
    chromatogramIdentity wf s p = CLResult.ok ie := by
  have hlt : p < (createIndex wf s).length := by
    by_contra hge
    rw [List.getElem?_eq_none (by omega)] at hie
    exact Option.noConfusion hie
  rw [chromatogramIdentity, if_neg (by omega), hie]

/-- For a position whose entry exists, `chromatogram` materializes it. -/
theorem chromatogram_ok (wf : WiffFile) (s p : Nat) (b : Bool) (ie : IndexEntry)
    (hie : (createIndex wf s)[p]? = some ie) :
    chromatogram wf s p b = CLResult.ok (materializeEntry wf p ie b) := by
  have hlt : p < (createIndex wf s).length := by
    by_contra hge
    rw [List.getElem?_eq_none (by omega)] at hie
    exact Option.noConfusion hie
  rw [chromatogram, if_neg (by omega), hie]

/-- A successful `chromatogram` call comes from a stored entry. -/
theorem chromatogram_ok_inv (wf : WiffFile) (s p : Nat) (b : Bool) (r : Chromatogram)
    (h : chromatogram wf s p b = CLResult.ok r) :
    ∃ ie, (createIndex wf s)[p]? = some ie ∧ r = materializeEntry wf p ie b := by
  rw [chromatogram] at h
  by_cases hgt : p > (createIndex wf s).length
  · rw [if_pos hgt] at h
    exact CLResult.noConfusion h
  · rw [if_neg hgt] at h
    match hie : (createIndex wf s)[p]? with
    | some ie =>
      rw [hie] at h
      exact ⟨ie, rfl, (CLResult.ok.inj h).symm⟩
    | none =>
      rw [hie] at h
      exact CLResult.noConfusion h

/-! ### Claims -/

/-- C1: the claim requires both `chromatogramIdentity` and `chromatogram` to
fail with an OutOfRange error for every position at or beyond `size()`.  The
code guards with `index > size_` instead of `index >= size_`, so the
position equal to `size()` slips past the guard into an unchecked
out-of-bounds vector access and no OutOfRange error is raised; only
positions strictly beyond `size()` are rejected. -/
theorem claim_C1_position_equal_to_size_not_rejected :
    size W0 1 = 1
      ∧ chromatogramIdentity W0 1 1 = CLResult.undefinedAccess
      ∧ chromatogram W0 1 1 true = CLResult.undefinedAccess
      ∧ chromatogramIdentity W0 1 1 ≠ CLResult.outOfRange 1
      ∧ chromatogram W0 1 1 true ≠ CLResult.outOfRange 1
      ∧ chromatogramIdentity W0 1 2 = CLResult.outOfRange 2
      ∧ chromatogram W0 1 2 true = CLResult.outOfRange 2 := by
  decide

/-- C2: the claim requires `find (chromatogramIdentity p).id = p` for every
valid position.  Because `createIndex` never inserts into `idToIndexMap_`,
`find` returns `size()` for every id: already for position 0 (the `"TIC"`
entry) the round-trip yields `size() = 1`, not `0`. -/
theorem claim_C2_find_roundtrip_broken :
    chromatogramIdentity W0 1 0 = CLResult.ok ticEntry
      ∧ ticEntry.id = "TIC"
      ∧ find W0 1 ticEntry.id = size W0 1
      ∧ size W0 1 = 1
      ∧ find W0 1 ticEntry.id ≠ 0 := by
  decide

/-- C3: after index construction the id-to-position map contains no entries
(`createIndex` never inserts into it), so `find` returns `size()` for every
string id whatsoever — including `"TIC"` and every id carried by an indexed
entry. -/
theorem claim_C3_idToIndexMap_empty_find_returns_size
    (wf : WiffFile) (s : Nat) (id : String) :
    idToIndexMap wf s = [] ∧ find wf s id = size wf s :=
  ⟨rfl, rfl⟩

/-- C4: materializing the aggregate TIC record, for every time `t` present
in any source experiment the output intensity at `t` is the sum of the
intensities reported at `t` across all source experiments, and the output
time array is strictly ascending. -/
theorem claim_C4_tic_merge_sums_and_sorted (wf : WiffFile) (s : Nat)
    (r : Chromatogram) (h : chromatogram wf s 0 true = CLResult.ok r) :
    (∀ t ∈ (allTicPoints wf).map Prod.fst,
        valAt (r.timeArray.zip r.intensityArray) t = valAt (allTicPoints wf) t)
      ∧ List.Chain' (fun a b : Dbl => a < b) r.timeArray := by
  obtain ⟨ie, hie, hr⟩ := chromatogram_ok_inv wf s 0 true r h
  rw [createIndex_zero wf s] at hie
  have he : ticEntry = ie := Option.some.inj hie
  subst he
  subst hr
  have htime : (materializeEntry wf 0 ticEntry true).timeArray
      = (fullFileTIC wf).map Prod.fst := rfl
  have hint : (materializeEntry wf 0 ticEntry true).intensityArray
      = (fullFileTIC wf).map Prod.snd := rfl
  constructor
  · intro t ht
    rw [htime, hint, zip_fst_snd, valAt_fullFileTIC]
  · rw [htime, List.chain'_map]
    exact keysSorted_fullFileTIC wf

/-- Witness for C4 on the two-experiment fixture `W4`: both experiments
report at the identical time 123 (1.23 minutes in hundredths), intensities
5 and 7; the aggregate record holds the single point (123, 12). -/
theorem claim_C4_witness :
    chromatogram W4 1 0 true = CLResult.ok R4
      ∧ (123 : Dbl) ∈ (allTicPoints W4).map Prod.fst
      ∧ valAt (R4.timeArray.zip R4.intensityArray) 123 = valAt (allTicPoints W4) 123
      ∧ valAt (allTicPoints W4) 123 = 12
      ∧ R4.timeArray = [123] ∧ R4.intensityArray = [12]
      ∧ List.Chain' (fun a b : Dbl => a < b) R4.timeArray :=
  ⟨by decide, by decide,
    (claim_C4_tic_merge_sums_and_sorted W4 1 R4 (by decide)).1 123 (by decide),
    by decide, by decide, by decide,
    (claim_C4_tic_merge_sums_and_sorted W4 1 R4 (by decide)).2⟩

/-- C5: the constructed index is the `"TIC"` aggregate entry at position 0
followed by one per-transition SRM entry per transition in nested
period/experiment/transition enumeration order (each with the templated
string id, compared here up to the position field); with zero periods only
the TIC entry exists and `size() = 1`. -/
theorem claim_C5_index_layout (wf : WiffFile) (s : Nat) :
    (createIndex wf s).map eraseIndex = ticEntry :: srmEnumEntries wf s
      ∧ (createIndex wf s)[0]? = some ticEntry
      ∧ ticEntry.id = "TIC"
      ∧ (wf.getPeriodCount s = 0 → createIndex wf s = [ticEntry] ∧ size wf s = 1) := by
  refine ⟨map_erase_createIndex wf s, createIndex_zero wf s, rfl, ?_⟩
  intro h0
  have hnil : createIndex wf s = [ticEntry] := by
    rw [createIndex, h0]
    simp
  exact ⟨hnil, by rw [size, hnil]; rfl⟩

/-- Witness for C5 on the zero-period fixture `W0`. -/
theorem claim_C5_witness :
    W0.getPeriodCount 1 = 0 ∧ createIndex W0 1 = [ticEntry] ∧ size W0 1 = 1 :=
  ⟨by decide, ((claim_C5_index_layout W0 1).2.2.2 (by decide)).1,
    ((claim_C5_index_layout W0 1).2.2.2 (by decide)).2⟩

/-- C6: for every valid position, the entry returned by
`chromatogramIdentity` stores that very position in its `index` field (each
entry's position was assigned sequentially at construction time). -/
theorem claim_C6_identity_preserves_position (wf : WiffFile) (s p : Nat)
    (e : IndexEntry) (hp : p < size wf s)
    (h : chromatogramIdentity wf s p = CLResult.ok e) :
    e.index = p := by
  rw [chromatogramIdentity] at h
  by_cases hgt : p > (createIndex wf s).length
  · rw [if_pos hgt] at h
    exact CLResult.noConfusion h
  · rw [if_neg hgt] at h
    match hie : (createIndex wf s)[p]? with
    | some ie =>
      rw [hie] at h
      have he : ie = e := CLResult.ok.inj h
      rw [← he]
      exact indexedFrom_createIndex wf s p ie hie
    | none =>
      rw [hie] at h
      exact CLResult.noConfusion h

/-- Witness for C6 at the SRM entry of `W7` (position 1). -/
theorem claim_C6_witness :
    1 < size W7 1 ∧ chromatogramIdentity W7 1 1 = CLResult.ok E71 ∧ E71.index = 1 :=
  ⟨by decide, by decide,
    claim_C6_identity_preserves_position W7 1 1 E71 (by decide) (by decide)⟩

/-- C7: for every valid position and both record kinds, materializing with
`getBinaryData = false` yields empty time/intensity arrays while
`defaultArrayLength` equals the true element count of the arrays that the
`getBinaryData = true` call returns. -/
theorem claim_C7_no_binary_data_lengths (wf : WiffFile) (s p : Nat)
    (r rb : Chromatogram) (hp : p < size wf s)
    (hf : chromatogram wf s p false = CLResult.ok r)
    (ht : chromatogram wf s p true = CLResult.ok rb) :
    r.timeArray = [] ∧ r.intensityArray = []
      ∧ r.defaultArrayLength = rb.timeArray.length
      ∧ r.defaultArrayLength = rb.intensityArray.length := by
  obtain ⟨ie, hie, hr⟩ := chromatogram_ok_inv wf s p false r hf
  obtain ⟨ie2, hie2, hr2⟩ := chromatogram_ok_inv wf s p true rb ht
  rw [hie] at hie2
  have he : ie = ie2 := Option.some.inj hie2
  subst he
  subst hr
  subst hr2
  cases hty : ie.chromatogramType with
  | MS_TIC_chromatogram =>
    simp only [materializeEntry, hty]
    simp
  | MS_SRM_chromatogram =>
    simp only [materializeEntry, hty]
    simp

/-- Witness for C7 on `W7`, exercising both kinds: the aggregate record at
position 0 and the SRM record at position 1. -/
theorem claim_C7_witness :
    0 < size W7 1 ∧ 1 < size W7 1
      ∧ (R70f.timeArray = [] ∧ R70f.intensityArray = []
          ∧ R70f.defaultArrayLength = R70t.timeArray.length
          ∧ R70f.defaultArrayLength = R70t.intensityArray.length)
      ∧ (R71f.timeArray = [] ∧ R71f.intensityArray = []
          ∧ R71f.defaultArrayLength = R71t.timeArray.length
          ∧ R71f.defaultArrayLength = R71t.intensityArray.length) :=
  ⟨by decide, by decide,
    claim_C7_no_binary_data_lengths W7 1 0 R70f R70t (by decide) (by decide) (by decide),
    claim_C7_no_binary_data_lengths W7 1 1 R71f R71t (by decide) (by decide) (by decide)⟩

/-- C8: aggregate (TIC) materialization draws on every sample reachable from
the raw file — it does not depend on which sample the catalog was opened
against — whereas index construction reads only the catalog's bound sample;
concretely, on the two-sample fixture `W8` bound to sample 1 the TIC record
carries both samples' points while the index has no entry for sample 2's
transition. -/
theorem claim_C8_tic_all_samples_index_bound_sample :
    (∀ (wf : WiffFile) (s s' : Nat) (b : Bool),
        chromatogram wf s 0 b = chromatogram wf s' 0 b)
      ∧ (∀ (wf wf' : WiffFile) (s : Nat), wf.getSample s = wf'.getSample s →
          createIndex wf s = createIndex wf' s)
      ∧ chromatogram W8 1 0 true = CLResult.ok R8
      ∧ createIndex W8 1 = [ticEntry]
      ∧ 1 < W8.getSampleCount := by
  refine ⟨?_, createIndex_congr, by decide, by decide, by decide⟩
  intro wf s s' b
  rw [chromatogram_ok wf s 0 b ticEntry (createIndex_zero wf s),
    chromatogram_ok wf s' 0 b ticEntry (createIndex_zero wf s')]

/-- Witness for C8: removing sample 2 leaves sample 1 unchanged, and the
index built against sample 1 is unchanged. -/
theorem claim_C8_witness :
    W8.getSample 1 = W8b.getSample 1 ∧ createIndex W8 1 = createIndex W8b 1 :=
  ⟨by decide, claim_C8_tic_all_samples_index_bound_sample.2.1 W8 W8b 1 (by decide)⟩

/-- C9: `find` on an id never assigned to any entry returns exactly
`size()`, the defined not-found sentinel, rather than failing. -/
theorem claim_C9_find_unassigned_returns_size (wf : WiffFile) (s : Nat)
    (id : String) (h : ∀ e ∈ createIndex wf s, e.id ≠ id) :
    find wf s id = size wf s :=
  rfl

/-- Witness for C9 with an id carried by no entry of `W0`. -/
theorem claim_C9_witness :
    (∀ e ∈ createIndex W0 1, e.id ≠ "XIC") ∧ find W0 1 "XIC" = size W0 1 :=
  ⟨by decide, claim_C9_find_unassigned_returns_size W0 1 "XIC" (by decide)⟩

end ChromatogramListABI
